import Mathlib

set_option linter.unusedVariables false

/-! Shallow embedding of the schedule reconciliation pipeline of api_db.py. -/

/-- JSON-like Python values handled by the API: None, int, str, list, dict.
Floats and booleans do not occur in the payloads the modelled claims range over. -/
inductive Val where
  | null : Val
  | int : Int → Val
  | str : String → Val
  | list : List Val → Val
  | obj : List (String × Val) → Val

mutual

/-- Decidable equality on modelled Python values. -/
def Val.deq : (a b : Val) → Decidable (a = b)
  | .null, .null => isTrue rfl
  | .null, .int _ => isFalse (fun h => Val.noConfusion h)
  | .null, .str _ => isFalse (fun h => Val.noConfusion h)
  | .null, .list _ => isFalse (fun h => Val.noConfusion h)
  | .null, .obj _ => isFalse (fun h => Val.noConfusion h)
  | .int _, .null => isFalse (fun h => Val.noConfusion h)
  | .int m, .int n =>
    match decEq m n with
    | isTrue h => isTrue (by rw [h])
    | isFalse h => isFalse (fun hh => h (Val.int.inj hh))
  | .int _, .str _ => isFalse (fun h => Val.noConfusion h)
  | .int _, .list _ => isFalse (fun h => Val.noConfusion h)
  | .int _, .obj _ => isFalse (fun h => Val.noConfusion h)
  | .str _, .null => isFalse (fun h => Val.noConfusion h)
  | .str _, .int _ => isFalse (fun h => Val.noConfusion h)
  | .str s, .str t =>
    match decEq s t with
    | isTrue h => isTrue (by rw [h])
    | isFalse h => isFalse (fun hh => h (Val.str.inj hh))
  | .str _, .list _ => isFalse (fun h => Val.noConfusion h)
  | .str _, .obj _ => isFalse (fun h => Val.noConfusion h)
  | .list _, .null => isFalse (fun h => Val.noConfusion h)
  | .list _, .int _ => isFalse (fun h => Val.noConfusion h)
  | .list _, .str _ => isFalse (fun h => Val.noConfusion h)
  | .list xs, .list ys =>
    match Val.deqList xs ys with
    | isTrue h => isTrue (by rw [h])
    | isFalse h => isFalse (fun hh => h (Val.list.inj hh))
  | .list _, .obj _ => isFalse (fun h => Val.noConfusion h)
  | .obj _, .null => isFalse (fun h => Val.noConfusion h)
  | .obj _, .int _ => isFalse (fun h => Val.noConfusion h)
  | .obj _, .str _ => isFalse (fun h => Val.noConfusion h)
  | .obj _, .list _ => isFalse (fun h => Val.noConfusion h)
  | .obj fs, .obj gs =>
    match Val.deqFields fs gs with
    | isTrue h => isTrue (by rw [h])
    | isFalse h => isFalse (fun hh => h (Val.obj.inj hh))

/-- Decidable equality on lists of modelled values. -/
def Val.deqList : (a b : List Val) → Decidable (a = b)
  | [], [] => isTrue rfl
  | [], _ :: _ => isFalse (fun h => List.noConfusion h)
  | _ :: _, [] => isFalse (fun h => List.noConfusion h)
  | x :: xs, y :: ys =>
    match Val.deq x y, Val.deqList xs ys with
    | isTrue h1, isTrue h2 => isTrue (by rw [h1, h2])
    | isFalse h1, _ => isFalse (fun h => h1 (List.cons.inj h).1)
    | _, isFalse h2 => isFalse (fun h => h2 (List.cons.inj h).2)

/-- Decidable equality on field lists of modelled objects. -/
def Val.deqFields : (a b : List (String × Val)) → Decidable (a = b)
  | [], [] => isTrue rfl
  | [], _ :: _ => isFalse (fun h => List.noConfusion h)
  | _ :: _, [] => isFalse (fun h => List.noConfusion h)
  | (k1, v1) :: fs, (k2, v2) :: gs =>
    match decEq k1 k2, Val.deq v1 v2, Val.deqFields fs gs with
    | isTrue hk, isTrue hv, isTrue ht => isTrue (by rw [hk, hv, ht])
    | isFalse hk, _, _ =>
      isFalse (fun h => hk (congrArg Prod.fst (List.cons.inj h).1))
    | _, isFalse hv, _ =>
      isFalse (fun h => hv (congrArg Prod.snd (List.cons.inj h).1))
    | _, _, isFalse ht => isFalse (fun h => ht (List.cons.inj h).2)

end

instance : DecidableEq Val := Val.deq

/-- Python truthiness, bool(v). -/
def truthy : Val → Bool
  | .null => false
  | .int n => n != 0
  | .str s => s != ""
  | .list xs => !xs.isEmpty
  | .obj fs => !fs.isEmpty

/-- Python a or b: a when truthy, else b. -/
def pyOr (a b : Val) : Val := if truthy a then a else b

/-- A modelled Python dict / Mongo document: association list of string keys. -/
abbrev Doc := List (String × Val)

/-- Association-list lookup by decidable key equality (Python dict get). -/
def alookup {α β : Type} [DecidableEq α] : List (α × β) → α → Option β
  | [], _ => none
  | (k, v) :: rest, i => if k = i then some v else alookup rest i

/-- Python dict assignment d[k] = v: replaces the value at the first binding of
k in place, else appends a new binding (insertion order preserved). -/
def insertOrReplace {α β : Type} [DecidableEq α] : List (α × β) → α → β → List (α × β)
  | [], k, v => [(k, v)]
  | (k1, v1) :: rest, k, v =>
    if k1 = k then (k1, v) :: rest else (k1, v1) :: insertOrReplace rest k v

/-- First binding of key k, modelling d.get(k) with absent key giving none. -/
def dictGet (d : Doc) (k : String) : Option Val := alookup d k

/-- Python d.get(k, dflt). -/
def dictGetD (d : Doc) (k : String) (dflt : Val) : Val := (dictGet d k).getD dflt

/-- Digit run of a base-10 Python int literal: digits with single underscores
allowed between digits, accumulating into acc. -/
def pyDigits : List Char → Nat → Option Nat
  | [], acc => some acc
  | '_' :: c :: cs, acc => if c.isDigit then pyDigits cs (acc * 10 + (c.toNat - 48)) else none
  | c :: cs, acc => if c.isDigit then pyDigits cs (acc * 10 + (c.toNat - 48)) else none

/-- Python int(s) on a string: optional surrounding whitespace and sign, then a
base-10 digit run; anything else raises ValueError, modelled as none. -/
def pyIntOfString (s : String) : Option Int :=
  let t := ((s.toList.dropWhile Char.isWhitespace).reverse.dropWhile Char.isWhitespace).reverse
  match t with
  | '-' :: c :: cs => if c.isDigit then (pyDigits cs (c.toNat - 48)).map (fun n => -(n : Int)) else none
  | '+' :: c :: cs => if c.isDigit then (pyDigits cs (c.toNat - 48)).map (fun n => (n : Int)) else none
  | c :: cs => if c.isDigit then (pyDigits cs (c.toNat - 48)).map (fun n => (n : Int)) else none
  | [] => none

/-- Python int(v) on a payload field: ints pass through, strings are parsed in
base 10, every other shape raises TypeError or ValueError, modelled as none. -/
def pyIntCast : Val → Option Int
  | .int n => some n
  | .str s => pyIntOfString s
  | _ => none

mutual

/-- Python repr(v); string escaping inside repr is not modelled. -/
def pyRepr : Val → String
  | .null => "None"
  | .int n => toString n
  | .str s => "\x27" ++ s ++ "\x27"
  | .list xs => "[" ++ pyReprList xs ++ "]"
  | .obj fs => "\x7b" ++ pyReprFields fs ++ "\x7d"

/-- Comma-separated reprs of list elements. -/
def pyReprList : List Val → String
  | [] => ""
  | [v] => pyRepr v
  | v :: vs => pyRepr v ++ ", " ++ pyReprList vs

/-- Comma-separated reprs of dict items. -/
def pyReprFields : List (String × Val) → String
  | [] => ""
  | [(k, v)] => "\x27" ++ k ++ "\x27: " ++ pyRepr v
  | (k, v) :: fs => "\x27" ++ k ++ "\x27: " ++ pyRepr v ++ ", " ++ pyReprFields fs

end

/-- Python str(v). -/
def pyStr : Val → String
  | .str s => s
  | v => pyRepr v

/-- Python s.replace applied with pattern Z and replacement +00:00: every
occurrence of the character Z is replaced. -/
def replaceZ (s : String) : String :=
  String.mk (s.toList.foldr
    (fun c acc => if c = 'Z' then '+' :: '0' :: '0' :: ':' :: '0' :: '0' :: acc else c :: acc) [])

/-- Function parse_airing_time of api_db.py. The library composition
datetime.fromisoformat followed by timestamp() and int truncation is abstracted
as the parameter iso, applied to the string with every Z replaced by +00:00
exactly as the source does. -/
def parse_airing_time (iso : String → Option Int) : Val → Option Int
  | .null => none
  | .int n => some n
  | .str s =>
    match pyIntOfString s with
    | some n => some n
    | none => iso (replaceZ s)
  | _ => none

/-- Function extract_title of api_db.py. -/
def extract_title (anime : Doc) : Val :=
  match dictGetD anime "title" (.obj []) with
  | .obj fs => pyOr (dictGetD fs "english" .null) (pyOr (dictGetD fs "romaji" .null) (.str ""))
  | t => if truthy t then .str (pyStr t) else .str ""

/-- Function extract_cover_image of api_db.py. -/
def extract_cover_image (anime : Doc) : Val :=
  match dictGetD anime "coverImage" (.obj []) with
  | .obj fs => pyOr (dictGetD fs "extraLarge" .null)
      (pyOr (dictGetD fs "large" .null) (pyOr (dictGetD fs "medium" .null) (.str "")))
  | t => if truthy t then .str (pyStr t) else .str ""

example : pyIntOfString " 42 " = some 42 := by decide
example : pyIntOfString "1_0" = some 10 := by decide
example : pyIntOfString "1__0" = none := by decide
example : pyIntOfString "-7" = some (-7) := by decide
example : pyIntOfString "" = none := by decide
example : pyIntOfString "4x" = none := by decide
example : parse_airing_time (fun _ => some 99) (.str "12") = some 12 := by decide
example : parse_airing_time (fun s => if s = "a+00:00" then some 5 else none) (.str "aZ") = some 5 := by decide
example : extract_title [("title", .obj [("english", .str ""), ("romaji", .str "Foo")])] = .str "Foo" := by decide
example : extract_title [] = .str "" := by decide
example : extract_title [("title", .int 42)] = .str "42" := by decide

/-- Outcome of one batched HTTP post to the external GraphQL service: a network
failure (requests.RequestException), or a response with its HTTP status code and
the media array extracted from the JSON body, each element a JSON object. -/
inductive BatchResult where
  | netError : BatchResult
  | response (statusCode : Int) (media : List Doc) : BatchResult

/-- Inner loop of fetch_status_from_anilist over the media array of one
successful response: record id to status for entries with truthy id and status. -/
def batchStep (m : List (Val × Val)) (media : List Doc) : List (Val × Val) :=
  media.foldl
    (fun m d =>
      let anime_id := dictGetD d "id" .null
      let status := dictGetD d "status" .null
      if truthy anime_id && truthy status then insertOrReplace m anime_id status else m)
    m

/-- Contribution of one batch call to the aggregated status map: a network error
or a non-200 response contributes nothing. -/
def processBatch (m : List (Val × Val)) (r : BatchResult) : List (Val × Val) :=
  match r with
  | .netError => m
  | .response code media => if code = 200 then batchStep m media else m

/-- Number of iterations of range(0, n, 50), the batch loop of the source. -/
def numBatches (n : Nat) : Nat := (n + 49) / 50

/-- Result of fetch_status_from_anilist: the aggregated id-to-status map and the
number of HTTP posts issued. -/
structure FetchResult where
  map : List (Val × Val)
  calls : Nat

/-- One iteration of the batch loop of fetch_status_from_anilist: slice out the
k-th batch of ids, issue the post, and fold its contribution into the map. -/
def fetchStep (net : Nat → List Int → BatchResult) (anime_ids : List Int)
    (acc : FetchResult) (k : Nat) : FetchResult :=
  let batch_ids := (anime_ids.drop (50 * k)).take 50
  ⟨processBatch acc.map (net k batch_ids), acc.calls + 1⟩

/-- Function fetch_status_from_anilist of api_db.py. The network is abstracted
as net, giving the outcome of the post for the k-th batch of ids. -/
def fetch_status_from_anilist (net : Nat → List Int → BatchResult)
    (anime_ids : List Int) : FetchResult :=
  if anime_ids.isEmpty then ⟨[], 0⟩
  else (List.range (numBatches anime_ids.length)).foldl (fetchStep net anime_ids) ⟨[], 0⟩

/-- Entry kept by the collapse phase of save_schedule_data for one show. -/
structure AnimeInfo where
  anime : Doc
  nextAiringAt : Int
  nextEpisode : Val
deriving DecidableEq

/-- One step of the collapse loop of save_schedule_data, processing a single
payload entry against the working map. -/
def collapse_step (now : Int) (iso : String → Option Int)
    (m : List (Int × AnimeInfo)) (entry : Val) : List (Int × AnimeInfo) :=
  match entry with
  | .obj anime =>
    match pyIntCast (dictGetD anime "id" .null) with
    | none => m
    | some anime_id =>
      match parse_airing_time iso (dictGetD anime "airing_time" .null) with
      | none => m
      | some next_at =>
        if next_at < now then m
        else
          match alookup m anime_id with
          | none => m ++ [(anime_id, ⟨anime, next_at, dictGetD anime "episode" .null⟩)]
          | some prev =>
            if next_at < prev.nextAiringAt then
              insertOrReplace m anime_id ⟨anime, next_at, dictGetD anime "episode" .null⟩
            else m
  | _ => m

/-- Items walked by the collapse loop, modelling the values of (data or a fresh
empty dict): a None payload and an empty dict both contribute nothing. -/
def payloadItems : Option (List (String × Val)) → List (String × Val)
  | none => []
  | some fs => fs

/-- Collapse phase of save_schedule_data: walk every day bucket of the payload,
skipping non-list buckets and non-dict entries, and fold the entries into the
working map keyed by parsed show id. -/
def collapse (now : Int) (iso : String → Option Int)
    (data : Option (List (String × Val))) : List (Int × AnimeInfo) :=
  (payloadItems data).foldl
    (fun m item =>
      match item.2 with
      | .list animes => animes.foldl (collapse_step now iso) m
      | _ => m)
    []

/-- The single batched read of save_schedule_data: the dict comprehension over
db.animes.find with filter id in ids, keyed by doc id with its status field. -/
def existingStatusOf (db : List Doc) (ids : List Int) : List (Int × Val) :=
  db.foldl
    (fun m d =>
      match dictGet d "id" with
      | some (.int i) =>
        if ids.contains i then insertOrReplace m i (dictGetD d "status" .null) else m
      | _ => m)
    []

/-- Conditional field insertion: update_doc[k] = v guarded by if v. -/
def optField (k : String) (v : Val) : Doc := if truthy v then [(k, v)] else []

/-- Status resolution of save_schedule_data: existing stored status, else the
freshly fetched status, else the status supplied inline in the payload entry. -/
def resolvedStatus (existing : List (Int × Val)) (fetched : List (Val × Val))
    (anime : Doc) (anime_id : Int) : Val :=
  pyOr ((alookup existing anime_id).getD .null)
    (pyOr ((alookup fetched (.int anime_id)).getD .null) (dictGetD anime "status" .null))

/-- The update document built by save_schedule_data for one surviving show. -/
def build_update_doc (now : Int) (existing : List (Int × Val)) (fetched : List (Val × Val))
    (anime_id : Int) (info : AnimeInfo) : Doc :=
  [("id", Val.int anime_id), ("nextEpisode", info.nextEpisode),
   ("nextAiringAt", Val.int info.nextAiringAt), ("updatedAt", Val.int now)]
  ++ optField "title" (extract_title info.anime)
  ++ optField "coverImage" (extract_cover_image info.anime)
  ++ optField "siteUrl" (dictGetD info.anime "siteUrl" .null)
  ++ optField "status" (resolvedStatus existing fetched info.anime anime_id)

/-- Mongo update semantics of a set operation merged into a matched document. -/
def mergeSet (old upd : Doc) : Doc := upd.foldl (fun d kv => insertOrReplace d kv.1 kv.2) old

/-- Mongo update_one with upsert on filter id equal to anime_id: merge the set
document into the first matching document, else insert the new document. -/
def update_one_upsert : List Doc → Int → Doc → List Doc
  | [], _, doc => [doc]
  | d :: rest, i, doc =>
    if dictGet d "id" = some (.int i) then mergeSet d doc :: rest
    else d :: update_one_upsert rest i doc

/-- Outcome of the write loop of save_schedule_data: final store, whether an
uncaught exception escaped, and the upserts performed before any failure. -/
structure WriteResult where
  db : List Doc
  raised : Bool
  upserts : List (Int × Doc)

/-- Write loop of save_schedule_data. The store operation upd may raise (none);
the loop body has no exception handler, so a raise aborts the remaining
iterations and escapes the function. -/
def write_phase (upd : Int → Doc → List Doc → Option (List Doc)) :
    List (Int × Doc) → List Doc → WriteResult
  | [], db => ⟨db, false, []⟩
  | (i, d) :: rest, db =>
    match upd i d db with
    | some db1 =>
      let r := write_phase upd rest db1
      ⟨r.db, r.raised, (i, d) :: r.upserts⟩
    | none => ⟨db, true, []⟩

/-- Observable outcome of save_schedule_data: final store, whether an exception
escaped, the upserts performed, the ids sent to the external lookup, the number
of external HTTP posts, and the number of store reads issued. -/
structure SaveResult where
  db : List Doc
  raised : Bool
  upserts : List (Int × Doc)
  lookupIds : List Int
  netCalls : Nat
  dbReads : Nat

/-- The list comprehension of save_schedule_data selecting the ids whose stored
status is missing or falsy. -/
def missingIds (db : List Doc) (ids : List Int) : List Int :=
  ids.filter (fun i => !truthy ((alookup (existingStatusOf db ids) i).getD .null))

/-- The status map fetched by save_schedule_data: fetch_status_from_anilist on
the missing ids, the call being skipped when no id is missing. -/
def fetchedStatusMap (net : Nat → List Int → BatchResult) (db : List Doc)
    (ids : List Int) : FetchResult :=
  if (missingIds db ids).isEmpty then FetchResult.mk [] 0
  else fetch_status_from_anilist net (missingIds db ids)

/-- The sequence of upserts planned by save_schedule_data: one update document
per entry of the collapsed map, in map order. -/
def save_planned_docs (now : Int) (iso : String → Option Int)
    (net : Nat → List Int → BatchResult)
    (data : Option (List (String × Val))) (db : List Doc) : List (Int × Doc) :=
  let anime_map := collapse now iso data
  let ids := anime_map.map Prod.fst
  anime_map.map (fun p =>
    (p.1, build_update_doc now (existingStatusOf db ids) (fetchedStatusMap net db ids).map p.1 p.2))

/-- Function save_schedule_data of api_db.py, with the clock, the ISO time
parser, the network and the store write operation abstracted as parameters. -/
def save_schedule_data (now : Int) (iso : String → Option Int)
    (net : Nat → List Int → BatchResult)
    (upd : Int → Doc → List Doc → Option (List Doc))
    (data : Option (List (String × Val))) (db : List Doc) : SaveResult :=
  let anime_map := collapse now iso data
  if anime_map.isEmpty then ⟨db, false, [], [], 0, 0⟩
  else
    let ids := anime_map.map Prod.fst
    let w := write_phase upd (save_planned_docs now iso net data db) db
    ⟨w.db, w.raised, w.upserts, missingIds db ids, (fetchedStatusMap net db ids).calls, 1⟩

/-- Mongo distinct on field id: the distinct id values over documents carrying
the field, in first-encounter order. -/
def distinctIds (db : List Doc) : List Val :=
  db.foldl
    (fun acc d =>
      match dictGet d "id" with
      | some v => if acc.contains v then acc else acc ++ [v]
      | none => acc)
    []

/-- Membership of a status value in FINISHED_STATUSES. -/
def isFinishedStatus (v : Val) : Bool := v == Val.str "FINISHED" || v == Val.str "CANCELLED"

/-- Ids collected from the media array of one successful cleanup batch: the id
field of every entry whose status is FINISHED or CANCELLED. -/
def cleanupBatchIds (media : List Doc) : List Val :=
  media.foldl
    (fun acc d =>
      if isFinishedStatus (dictGetD d "status" .null) then acc ++ [dictGetD d "id" .null]
      else acc)
    []

/-- Observable outcome of cleanup_finished_anime: final store, returned count,
number of external HTTP posts, and the collected finished id list. -/
structure CleanupResult where
  db : List Doc
  ret : Int
  netCalls : Nat
  finished : List Val

/-- One iteration of the batch loop of cleanup_finished_anime: a network error
or a non-200 response contributes no finished ids. -/
def cleanupStep (net : Nat → List Val → BatchResult) (unique_anime_ids : List Val)
    (acc : List Val) (k : Nat) : List Val :=
  match net k ((unique_anime_ids.drop (50 * k)).take 50) with
  | .netError => acc
  | .response code media => if code = 200 then acc ++ cleanupBatchIds media else acc

/-- Batch loop of cleanup_finished_anime: the finished ids collected over all
batches of the distinct stored ids. -/
def cleanupFinishedList (net : Nat → List Val → BatchResult)
    (unique_anime_ids : List Val) : List Val :=
  (List.range (numBatches unique_anime_ids.length)).foldl (cleanupStep net unique_anime_ids) []

/-- Function cleanup_finished_anime of api_db.py, network abstracted as net. -/
def cleanup_finished_anime (net : Nat → List Val → BatchResult) (db : List Doc) : CleanupResult :=
  let unique_anime_ids := distinctIds db
  if unique_anime_ids.isEmpty then ⟨db, 0, 0, []⟩
  else
    let nb := numBatches unique_anime_ids.length
    let finished := cleanupFinishedList net unique_anime_ids
    if finished.isEmpty then ⟨db, 0, nb, finished⟩
    else
      let remaining := db.filter (fun d => !(finished.contains (dictGetD d "id" .null)))
      let deleted := (db.filter (fun d => finished.contains (dictGetD d "id" .null))).length
      ⟨remaining, (deleted : Int), nb, finished⟩

/-- The seven weekday names used by load_schedule_data. -/
def days7 : List String :=
  ["Monday", "Tuesday", "Wednesday", "Thursday", "Friday", "Saturday", "Sunday"]

/-- The projected weekly schedule: day name to list of display objects. -/
abbrev Schedule := List (String × List Doc)

/-- The seven empty buckets initialized before the guarded body. -/
def initSchedule : Schedule := days7.map (fun d => (d, []))

/-- Python del d[k]. -/
def removeKey : Doc → String → Doc
  | [], _ => []
  | (k1, v) :: rest, k => if k1 = k then removeKey rest k else (k1, v) :: removeKey rest k

/-- Python schedule_data[day].append(x): appends to the bucket of day, or fails
with a KeyError when day is not among the keys. -/
def appendDay : Schedule → String → Doc → Option Schedule
  | [], _, _ => none
  | (d, xs) :: rest, day, x =>
    if d = day then some ((d, xs ++ [x]) :: rest)
    else
      match appendDay rest day x with
      | some r => some ((d, xs) :: r)
      | none => none

/-- The display object built by load_schedule_data for one stored show. -/
def buildAnimeObj (anime : Doc) (next_airing_at : Val) (dtStr : String) : Doc :=
  [("id", dictGetD anime "id" .null), ("title", dictGetD anime "title" (.str "")),
   ("coverImage", dictGetD anime "coverImage" (.str "")),
   ("episode", dictGetD anime "nextEpisode" .null),
   ("airing_time", next_airing_at), ("datetime", .str dtStr)]
  ++ (if truthy (dictGetD anime "siteUrl" .null)
      then [("siteUrl", dictGetD anime "siteUrl" .null)] else [])

/-- Loop of load_schedule_data over the queried documents. A failing int cast or
a bucket KeyError raises inside the try block, which hands the schedule built so
far to the except clause; the second component is false in that case. -/
def loadLoop (wk fmt : Int → String) : Schedule → List Doc → Schedule × Bool
  | sched, [] => (sched, true)
  | sched, anime0 :: rest =>
    let anime := removeKey anime0 "_id"
    let next_airing_at := dictGetD anime "nextAiringAt" .null
    if next_airing_at = .null then loadLoop wk fmt sched rest
    else
      match pyIntCast next_airing_at with
      | none => (sched, false)
      | some t =>
        match appendDay sched (wk t) (buildAnimeObj anime next_airing_at (fmt t)) with
        | none => (sched, false)
        | some s1 => loadLoop wk fmt s1 rest

/-- Find filter of load_schedule_data on the status field. -/
def statusReleasing (d : Doc) : Bool :=
  match dictGet d "status" with
  | some (.str s) => s == "RELEASING" || s == "NOT_YET_RELEASED"
  | _ => false

/-- Find filter of load_schedule_data on the nextAiringAt field: the field
exists and is at least the current timestamp. -/
def timeOk (now : Int) (d : Doc) : Bool :=
  match dictGet d "nextAiringAt" with
  | some (.int t) => decide (now ≤ t)
  | _ => false

/-- Sort key x.get with key airing_time and default 0. Documents appended by
loadLoop always carry an integer airing_time because the find filter demands an
integer nextAiringAt, so the fallback branch is unreachable there. -/
def airingKey (d : Doc) : Int :=
  match dictGetD d "airing_time" (.int 0) with
  | .int t => t
  | _ => 0

/-- Stable ascending insertion by airing key (element goes after equals). -/
def insertSorted (x : Doc) : List Doc → List Doc
  | [] => [x]
  | y :: ys => if airingKey x < airingKey y then x :: y :: ys else y :: insertSorted x ys

/-- Python list.sort with key airing_time: stable ascending sort. -/
def sortByAiring (xs : List Doc) : List Doc := xs.foldl (fun acc x => insertSorted x acc) []

/-- Per-day sorting pass of load_schedule_data. -/
def sortDays (s : Schedule) : Schedule := s.map (fun p => (p.1, sortByAiring p.2))

/-- Function load_schedule_data of api_db.py. The timezone conversion of a
timestamp to its weekday name and display string is abstracted as wk and fmt;
findOk tells whether the store read inside the try block succeeds, a failed
read landing in the except clause with the untouched initial buckets. -/
def load_schedule_data (now : Int) (wk fmt : Int → String)
    (net : Nat → List Val → BatchResult) (db : List Doc) (findOk : Bool) : Schedule :=
  let db1 := (cleanup_finished_anime net db).db
  if findOk then
    let animes := db1.filter (fun d => statusReleasing d && timeOk now d)
    match loadLoop wk fmt initSchedule animes with
    | (s, true) => sortDays s
    | (s, false) => s
  else initSchedule

/-! ### General lemmas about the association-list operations -/

/-- Eager choice on options, used to state lookup over append. -/
def optOr {α : Type} : Option α → Option α → Option α
  | some v, _ => some v
  | none, b => b

theorem alookup_append {α β : Type} [DecidableEq α] (l1 l2 : List (α × β)) (k : α) :
    alookup (l1 ++ l2) k = optOr (alookup l1 k) (alookup l2 k) := by
  induction l1 with
  | nil => simp [alookup, optOr]
  | cons p rest ih =>
    obtain ⟨k1, v1⟩ := p
    by_cases h : k1 = k <;> simp [alookup, h, ih, optOr]

theorem alookup_insertOrReplace_self {α β : Type} [DecidableEq α]
    (m : List (α × β)) (k : α) (v : β) : alookup (insertOrReplace m k v) k = some v := by
  induction m with
  | nil => simp [insertOrReplace, alookup]
  | cons p rest ih =>
    obtain ⟨k1, v1⟩ := p
    by_cases h : k1 = k <;> simp [insertOrReplace, alookup, h, ih]

theorem alookup_insertOrReplace_other {α β : Type} [DecidableEq α]
    (m : List (α × β)) (k j : α) (v : β) (hjk : j ≠ k) :
    alookup (insertOrReplace m k v) j = alookup m j := by
  induction m with
  | nil =>
    show alookup [(k, v)] j = none
    simp only [alookup]
    exact if_neg (fun hh => hjk hh.symm)
  | cons p rest ih =>
    obtain ⟨k1, v1⟩ := p
    by_cases h : k1 = k
    · have hstep : insertOrReplace ((k1, v1) :: rest) k v = (k1, v) :: rest := by
        simp [insertOrReplace, h]
      rw [hstep]
      have hk1j : ¬ k1 = j := fun hh => hjk (by rw [← hh, h])
      simp [alookup, hk1j]
    · have hstep : insertOrReplace ((k1, v1) :: rest) k v
          = (k1, v1) :: insertOrReplace rest k v := by
        simp [insertOrReplace, h]
      rw [hstep]
      simp [alookup, ih]

theorem insertOrReplace_mem {α β : Type} [DecidableEq α]
    (m : List (α × β)) (k : α) (v : β) (p : α × β) (hp : p ∈ insertOrReplace m k v) :
    p ∈ m ∨ p = (k, v) := by
  induction m with
  | nil =>
    right
    simpa [insertOrReplace] using hp
  | cons q rest ih =>
    obtain ⟨k1, v1⟩ := q
    by_cases h : k1 = k
    · have hstep : insertOrReplace ((k1, v1) :: rest) k v = (k1, v) :: rest := by
        simp [insertOrReplace, h]
      rw [hstep] at hp
      rcases List.mem_cons.mp hp with h1 | h1
      · right; rw [h1, h]
      · left; exact List.mem_cons_of_mem _ h1
    · have hstep : insertOrReplace ((k1, v1) :: rest) k v
          = (k1, v1) :: insertOrReplace rest k v := by
        simp [insertOrReplace, h]
      rw [hstep] at hp
      rcases List.mem_cons.mp hp with h1 | h1
      · left; rw [h1]; exact List.mem_cons_self _ _
      · rcases ih h1 with h2 | h2
        · left; exact List.mem_cons_of_mem _ h2
        · right; exact h2

theorem insertOrReplace_fst_of_found {α β : Type} [DecidableEq α]
    (m : List (α × β)) (k : α) (v w : β) (hw : alookup m k = some w) :
    (insertOrReplace m k v).map Prod.fst = m.map Prod.fst := by
  induction m with
  | nil => simp [alookup] at hw
  | cons q rest ih =>
    obtain ⟨k1, v1⟩ := q
    by_cases h : k1 = k
    · simp [insertOrReplace, h]
    · simp only [alookup, if_neg h] at hw
      simp [insertOrReplace, h, ih hw]

theorem alookup_eq_none_iff {α β : Type} [DecidableEq α]
    (m : List (α × β)) (k : α) : alookup m k = none ↔ k ∉ m.map Prod.fst := by
  induction m with
  | nil => simp [alookup]
  | cons q rest ih =>
    obtain ⟨k1, v1⟩ := q
    by_cases h : k1 = k
    · subst h
      simp [alookup]
    · have h2 : ¬ k = k1 := fun hh => h hh.symm
      simp [alookup, h, h2, ih]

/-! ### Claim theorems about the time normalizer and the record projector -/

/-- Claim C8: parse_airing_time maps null to unparseable; an integer to itself;
a string first through base-10 integer interpretation and only on failure
through ISO parsing of the string with Z normalized to +00:00 (so a string that
parses as an integer is independent of the ISO parser); and every other shape
to unparseable. The function is total, so no input raises. -/
theorem parse_airing_time_policy (iso iso2 : String → Option Int) :
    parse_airing_time iso Val.null = none
    ∧ (∀ n : Int, parse_airing_time iso (Val.int n) = some n)
    ∧ (∀ s n, pyIntOfString s = some n → parse_airing_time iso (Val.str s) = some n)
    ∧ (∀ s n, pyIntOfString s = some n →
        parse_airing_time iso (Val.str s) = parse_airing_time iso2 (Val.str s))
    ∧ (∀ s, pyIntOfString s = none → parse_airing_time iso (Val.str s) = iso (replaceZ s))
    ∧ (∀ xs, parse_airing_time iso (Val.list xs) = none)
    ∧ (∀ fs, parse_airing_time iso (Val.obj fs) = none) := by
  refine ⟨rfl, fun n => rfl, ?_, ?_, ?_, fun xs => rfl, fun fs => rfl⟩
  · intro s n h; simp [parse_airing_time, h]
  · intro s n h; simp [parse_airing_time, h]
  · intro s h; simp [parse_airing_time, h]

/-- Witness for C8 at concrete strings: 42 parses as an integer literal and a
non-numeric string falls through to the ISO parser. -/
theorem parse_airing_time_policy_witness :
    parse_airing_time (fun _ => some 7) (Val.str "42") = some 42
    ∧ parse_airing_time (fun _ => some 7) (Val.str "aZ")
      = (fun _ => some (7 : Int)) (replaceZ "aZ") :=
  ⟨(parse_airing_time_policy (fun _ => some 7) (fun _ => some 7)).2.2.1 "42" 42 (by decide),
   (parse_airing_time_policy (fun _ => some 7) (fun _ => some 7)).2.2.2.2.1 "aZ" (by decide)⟩

/-- Counterexample to claim C9: a title value that is neither a dict nor a
string is not sent to the empty string; a truthy integer title yields its
Python string rendering. -/
theorem extract_title_nondict_not_empty :
    extract_title [("title", Val.int 42)] = Val.str "42"
    ∧ extract_title [("title", Val.int 42)] ≠ Val.str "" := by
  constructor
  · rfl
  · intro h
    exact absurd (Val.str.inj h) (by decide)

/-- Title selection as the code implements it: on a dict-shaped title the first
truthy of the english then romaji variants, else the empty string; on any other
title value its Python string rendering when truthy, else the empty string. -/
def titleSpec : Val → Val
  | .obj fs =>
    if truthy (dictGetD fs "english" .null) then dictGetD fs "english" .null
    else if truthy (dictGetD fs "romaji" .null) then dictGetD fs "romaji" .null
    else .str ""
  | t => if truthy t then .str (pyStr t) else .str ""

/-- Claim C9 as amended: extract_title applied to any show object selects, for a
dict-shaped title, the first truthy of english then romaji (an empty-string
english falls through to romaji) and otherwise the empty string; a plain-string
title maps to itself; any other truthy title value maps to its Python string
rendering, and a falsy one to the empty string. The function is total. -/
theorem extract_title_amended (anime : Doc) :
    extract_title anime = titleSpec (dictGetD anime "title" (Val.obj []))
    ∧ ∀ s : String, titleSpec (Val.str s) = Val.str s := by
  constructor
  · unfold extract_title titleSpec
    cases dictGetD anime "title" (Val.obj []) with
    | obj fs =>
      by_cases h1 : truthy (dictGetD fs "english" Val.null) <;>
        by_cases h2 : truthy (dictGetD fs "romaji" Val.null) <;>
        simp [pyOr, h1, h2]
    | null => rfl
    | int n => rfl
    | str s => by_cases h : truthy (Val.str s) <;> simp [pyStr, h]
    | list xs => rfl
  · intro s
    by_cases h : truthy (Val.str s)
    · simp [titleSpec, pyStr, h]
    · have hs : s = "" := by simpa [truthy] using h
      simp [titleSpec, pyStr, h, hs]

/-! ### Claim C6: the projection always returns the seven weekday buckets -/

theorem appendDay_fst (day : String) (x : Doc) :
    ∀ (s s1 : Schedule), appendDay s day x = some s1 →
      s1.map Prod.fst = s.map Prod.fst := by
  intro s
  induction s with
  | nil => intro s1 h; simp [appendDay] at h
  | cons p rest ih =>
    obtain ⟨d, xs⟩ := p
    intro s1 h
    by_cases hd : d = day
    · simp only [appendDay, if_pos hd] at h
      injection h with h
      subst h
      simp
    · simp only [appendDay, if_neg hd] at h
      cases hh : appendDay rest day x with
      | none => rw [hh] at h; simp at h
      | some r =>
        rw [hh] at h
        injection h with h
        subst h
        simp [ih r hh]

theorem loadLoop_fst (wk fmt : Int → String) (docs : List Doc) :
    ∀ s : Schedule, ((loadLoop wk fmt s docs).1).map Prod.fst = s.map Prod.fst := by
  induction docs with
  | nil => intro s; rfl
  | cons a rest ih =>
    intro s
    simp only [loadLoop]
    by_cases h : dictGetD (removeKey a "_id") "nextAiringAt" Val.null = Val.null
    · simp only [if_pos h]
      exact ih s
    · simp only [if_neg h]
      cases pyIntCast (dictGetD (removeKey a "_id") "nextAiringAt" Val.null) with
      | none => rfl
      | some t =>
        cases hh : appendDay s (wk t)
            (buildAnimeObj (removeKey a "_id") (dictGetD (removeKey a "_id") "nextAiringAt" Val.null) (fmt t)) with
        | none => simp [hh]
        | some s1 =>
          simp only [hh]
          rw [ih s1, appendDay_fst (wk t) _ s s1 hh]

theorem sortDays_fst (s : Schedule) : (sortDays s).map Prod.fst = s.map Prod.fst := by
  induction s with
  | nil => rfl
  | cons p rest ih => simp [sortDays]

/-- Claim C6: for every store state, clock, timezone behaviour and network
behaviour, load_schedule_data returns a mapping whose keys are exactly the
seven weekday names Monday through Sunday, each bound to a (possibly empty)
list; in particular when the store read raises, the seven untouched empty
buckets are returned instead of the failure propagating. -/
theorem load_schedule_seven_buckets (now : Int) (wk fmt : Int → String)
    (net : Nat → List Val → BatchResult) (db : List Doc) (findOk : Bool) :
    (load_schedule_data now wk fmt net db findOk).map Prod.fst = days7
    ∧ (findOk = false → load_schedule_data now wk fmt net db findOk = initSchedule) := by
  constructor
  · unfold load_schedule_data
    cases findOk with
    | false => rfl
    | true =>
      simp only [if_pos]
      rcases hl : loadLoop wk fmt initSchedule
          (((cleanup_finished_anime net db).db).filter
            (fun d => statusReleasing d && timeOk now d)) with ⟨s, ok⟩
      have hfst := loadLoop_fst wk fmt
        (((cleanup_finished_anime net db).db).filter
          (fun d => statusReleasing d && timeOk now d)) initSchedule
      rw [hl] at hfst
      cases ok with
      | true => simpa [sortDays_fst] using hfst
      | false => simpa using hfst
  · intro h
    subst h
    rfl

/-- Witness for C6 at a concrete failing store read over the empty store. -/
theorem load_schedule_seven_buckets_witness :
    (load_schedule_data 0 (fun _ => "Monday") (fun _ => "t")
        (fun _ _ => BatchResult.netError) [] false).map Prod.fst = days7
    ∧ load_schedule_data 0 (fun _ => "Monday") (fun _ => "t")
        (fun _ _ => BatchResult.netError) [] false = initSchedule :=
  ⟨(load_schedule_seven_buckets 0 (fun _ => "Monday") (fun _ => "t")
      (fun _ _ => BatchResult.netError) [] false).1,
   (load_schedule_seven_buckets 0 (fun _ => "Monday") (fun _ => "t")
      (fun _ _ => BatchResult.netError) [] false).2 rfl⟩

/-! ### Claim C7: batching and per-batch failure isolation of the status fetch -/

theorem fetch_fold_calls (net : Nat → List Int → BatchResult) (anime_ids : List Int)
    (L : List Nat) : ∀ acc : FetchResult,
    (L.foldl (fetchStep net anime_ids) acc).calls = acc.calls + L.length := by
  induction L with
  | nil => intro acc; simp
  | cons k L ih =>
    intro acc
    rw [List.foldl_cons, ih]
    simp [fetchStep]
    omega

/-- A batch outcome the source treats as contributing nothing: a network error
or a response with a non-200 status code. -/
def batchFails : BatchResult → Bool
  | .netError => true
  | .response code _ => code != 200

theorem processBatch_of_fails (m : List (Val × Val)) (r : BatchResult)
    (h : batchFails r = true) : processBatch m r = m := by
  cases r with
  | netError => rfl
  | response code media =>
    simp only [batchFails, bne_iff_ne, ne_eq] at h
    simp [processBatch, h]

/-- Claim C7: for a list of n identifiers the fetch issues exactly the number
of posts of range(0, n, 50), namely (n + 49) / 50 (an empty list giving the
empty mapping with no post); and a network failure or non-success response on
the k-th batch leaves the whole result as if that batch had returned an empty
success, so the contributions collected from the other batches are intact and
no failure escapes. -/
theorem fetch_status_batching (net : Nat → List Int → BatchResult) (anime_ids : List Int) :
    (fetch_status_from_anilist net anime_ids).calls = (anime_ids.length + 49) / 50
    ∧ fetch_status_from_anilist net ([] : List Int) = ⟨[], 0⟩
    ∧ ∀ k, batchFails (net k ((anime_ids.drop (50 * k)).take 50)) = true →
        fetch_status_from_anilist net anime_ids
          = fetch_status_from_anilist
              (fun j l => if j = k then BatchResult.response 200 [] else net j l) anime_ids := by
  refine ⟨?_, rfl, ?_⟩
  · cases anime_ids with
    | nil => rfl
    | cons a rest =>
      have hfold : fetch_status_from_anilist net (a :: rest)
          = (List.range (numBatches (a :: rest).length)).foldl
              (fetchStep net (a :: rest)) ⟨[], 0⟩ := rfl
      rw [hfold, fetch_fold_calls]
      simp [numBatches]
  · intro k hk
    cases anime_ids with
    | nil => rfl
    | cons a rest =>
      have hfold1 : fetch_status_from_anilist net (a :: rest)
          = (List.range (numBatches (a :: rest).length)).foldl
              (fetchStep net (a :: rest)) ⟨[], 0⟩ := rfl
      have hfold2 : fetch_status_from_anilist
            (fun j l => if j = k then BatchResult.response 200 [] else net j l) (a :: rest)
          = (List.range (numBatches (a :: rest).length)).foldl
              (fetchStep (fun j l => if j = k then BatchResult.response 200 [] else net j l)
                (a :: rest)) ⟨[], 0⟩ := rfl
      rw [hfold1, hfold2]
      refine List.foldl_ext _ _ _ ?_
      intro acc j hj
      by_cases hjk : j = k
      · subst hjk
        have hstep : fetchStep net (a :: rest) acc j
            = ⟨processBatch acc.map (net j (((a :: rest).drop (50 * j)).take 50)),
               acc.calls + 1⟩ := rfl
        rw [hstep, processBatch_of_fails acc.map _ hk]
        simp [fetchStep, processBatch, batchStep]
      · simp [fetchStep, hjk]

/-- Witness for C7 at one identifier and a network that fails the only batch. -/
theorem fetch_status_batching_witness :
    (fetch_status_from_anilist (fun _ _ => BatchResult.netError) [1]).calls = 1
    ∧ (fetch_status_from_anilist (fun _ _ => BatchResult.netError) [1]).map
      = (fetch_status_from_anilist
          (fun j l => if j = 0 then BatchResult.response 200 [] else BatchResult.netError) [1]).map := by
  constructor
  · exact (fetch_status_batching (fun _ _ => BatchResult.netError) [1]).1
  · exact congrArg FetchResult.map
      ((fetch_status_batching (fun _ _ => BatchResult.netError) [1]).2.2 0 rfl)

/-! ### Claim C10: empty collapse means no effects at all -/

/-- Claim C10: when the collapse phase of save_schedule_data keeps no entry,
the function returns before the store read, the external lookup and the write
loop: the store is returned exactly unchanged, nothing raised, no upsert, no
lookup id, no network call and no store read, for every network and store
behaviour. -/
theorem save_noop_when_collapse_empty (now : Int) (iso : String → Option Int)
    (net : Nat → List Int → BatchResult) (upd : Int → Doc → List Doc → Option (List Doc))
    (data : Option (List (String × Val))) (db : List Doc)
    (h : collapse now iso data = []) :
    save_schedule_data now iso net upd data db = ⟨db, false, [], [], 0, 0⟩ := by
  simp [save_schedule_data, h]

/-- Witness for C10: a null payload over a nonempty store leaves it unchanged. -/
theorem save_noop_when_collapse_empty_witness :
    save_schedule_data 0 (fun _ => none) (fun _ _ => BatchResult.netError)
        (fun _ _ db2 => some db2) none [[("id", Val.int 3)]]
      = ⟨[[("id", Val.int 3)]], false, [], [], 0, 0⟩ :=
  save_noop_when_collapse_empty 0 (fun _ => none) (fun _ _ => BatchResult.netError)
    (fun _ _ db2 => some db2) none [[("id", Val.int 3)]] rfl

/-! ### Claim C2: only future entries survive collapse and get written -/

theorem collapse_step_inv (now : Int) (iso : String → Option Int)
    (m : List (Int × AnimeInfo)) (e : Val)
    (hm : ∀ p ∈ m, now ≤ p.2.nextAiringAt) :
    ∀ p ∈ collapse_step now iso m e, now ≤ p.2.nextAiringAt := by
  intro p hp
  cases e with
  | obj anime =>
    simp only [collapse_step] at hp
    cases hid : pyIntCast (dictGetD anime "id" Val.null) with
    | none => simp only [hid] at hp; exact hm p hp
    | some i =>
      simp only [hid] at hp
      cases hpt : parse_airing_time iso (dictGetD anime "airing_time" Val.null) with
      | none => simp only [hpt] at hp; exact hm p hp
      | some t =>
        simp only [hpt] at hp
        by_cases hlt : t < now
        · rw [if_pos hlt] at hp; exact hm p hp
        · rw [if_neg hlt] at hp
          cases halo : alookup m i with
          | none =>
            simp only [halo] at hp
            rcases List.mem_append.mp hp with h1 | h1
            · exact hm p h1
            · have hpe : p = (i, ⟨anime, t, dictGetD anime "episode" Val.null⟩) := by
                simpa using h1
              rw [hpe]
              exact le_of_not_lt hlt
          | some prev =>
            simp only [halo] at hp
            by_cases h2 : t < prev.nextAiringAt
            · rw [if_pos h2] at hp
              rcases insertOrReplace_mem _ _ _ _ hp with h1 | h1
              · exact hm p h1
              · rw [h1]; exact le_of_not_lt hlt
            · rw [if_neg h2] at hp; exact hm p hp
  | null => exact hm p hp
  | int n => exact hm p hp
  | str s => exact hm p hp
  | list xs => exact hm p hp

theorem collapse_list_inv (now : Int) (iso : String → Option Int) (animes : List Val) :
    ∀ m, (∀ p ∈ m, now ≤ p.2.nextAiringAt) →
      ∀ p ∈ animes.foldl (collapse_step now iso) m, now ≤ p.2.nextAiringAt := by
  induction animes with
  | nil => intro m hm; exact hm
  | cons e rest ih => intro m hm; exact ih _ (collapse_step_inv now iso m e hm)

theorem collapse_inv (now : Int) (iso : String → Option Int)
    (data : Option (List (String × Val))) :
    ∀ p ∈ collapse now iso data, now ≤ p.2.nextAiringAt := by
  unfold collapse
  generalize payloadItems data = items
  have hgen : ∀ (items : List (String × Val)) (m : List (Int × AnimeInfo)),
      (∀ p ∈ m, now ≤ p.2.nextAiringAt) →
      ∀ p ∈ items.foldl
        (fun m item =>
          match item.2 with
          | Val.list animes => animes.foldl (collapse_step now iso) m
          | _ => m) m, now ≤ p.2.nextAiringAt := by
    intro items
    induction items with
    | nil => intro m hm; exact hm
    | cons it rest ih =>
      intro m hm
      rcases hv : it.2 with _ | n | s | animes | fs
      all_goals simp only [List.foldl_cons, hv]
      case list => exact ih _ (collapse_list_inv now iso animes m hm)
      all_goals exact ih _ hm
  exact hgen _ [] (by simp)

theorem write_phase_upserts_sub (upd : Int → Doc → List Doc → Option (List Doc)) :
    ∀ (items : List (Int × Doc)) (db : List Doc),
      ∀ q ∈ (write_phase upd items db).upserts, q ∈ items := by
  intro items
  induction items with
  | nil => intro db q hq; simp [write_phase] at hq
  | cons p rest ih =>
    intro db q hq
    obtain ⟨i, d⟩ := p
    simp only [write_phase] at hq
    cases hu : upd i d db with
    | some db1 =>
      rw [hu] at hq
      rcases List.mem_cons.mp hq with h1 | h1
      · rw [h1]; exact List.mem_cons_self _ _
      · exact List.mem_cons_of_mem _ (ih db1 q h1)
    | none =>
      rw [hu] at hq
      simp at hq

theorem save_upserts_mem (now : Int) (iso : String → Option Int)
    (net : Nat → List Int → BatchResult) (upd : Int → Doc → List Doc → Option (List Doc))
    (data : Option (List (String × Val))) (db : List Doc) (q : Int × Doc)
    (hq : q ∈ (save_schedule_data now iso net upd data db).upserts) :
    q ∈ save_planned_docs now iso net data db := by
  by_cases hemp : (collapse now iso data).isEmpty
  · exfalso
    have hz : (save_schedule_data now iso net upd data db).upserts = [] := by
      simp [save_schedule_data, hemp]
    rw [hz] at hq
    simp at hq
  · have hz : (save_schedule_data now iso net upd data db).upserts
        = (write_phase upd (save_planned_docs now iso net data db) db).upserts := by
      simp [save_schedule_data, hemp]
    rw [hz] at hq
    exact write_phase_upserts_sub upd _ db q hq

theorem build_update_doc_airing (now : Int) (ex : List (Int × Val))
    (f : List (Val × Val)) (i : Int) (info : AnimeInfo) :
    dictGet (build_update_doc now ex f i info) "nextAiringAt"
      = some (Val.int info.nextAiringAt) := by
  rfl

/-- Claim C2: an entry with an unparseable airing time or one strictly before
now never survives the collapse (every surviving entry has nextAiringAt at
least now), and consequently every update document the write loop issues
carries a nextAiringAt of at least now. -/
theorem save_excludes_past_entries (now : Int) (iso : String → Option Int)
    (net : Nat → List Int → BatchResult) (upd : Int → Doc → List Doc → Option (List Doc))
    (data : Option (List (String × Val))) (db : List Doc) :
    (∀ p ∈ collapse now iso data, now ≤ p.2.nextAiringAt)
    ∧ ∀ q ∈ (save_schedule_data now iso net upd data db).upserts,
        ∃ t : Int, dictGet q.2 "nextAiringAt" = some (Val.int t) ∧ now ≤ t := by
  refine ⟨collapse_inv now iso data, ?_⟩
  intro q hq
  have hmem := save_upserts_mem now iso net upd data db q hq
  unfold save_planned_docs at hmem
  rcases List.mem_map.mp hmem with ⟨p, hp, hqe⟩
  refine ⟨p.2.nextAiringAt, ?_, collapse_inv now iso data p hp⟩
  rw [← hqe]
  exact build_update_doc_airing now _ _ p.1 p.2

/-- Witness for C2 at a concrete one-entry payload airing in the future. -/
theorem save_excludes_past_entries_witness :
    ∃ t : Int,
      dictGet
        ((1 : Int),
          build_update_doc 10 (existingStatusOf [] [1])
            (fetchedStatusMap (fun _ _ => BatchResult.netError) [] [1]).map 1
            ⟨[("id", Val.int 1), ("airing_time", Val.int 100)], 100, Val.null⟩).2
        "nextAiringAt" = some (Val.int t) ∧ (10 : Int) ≤ t := by
  refine (save_excludes_past_entries 10 (fun _ => none) (fun _ _ => BatchResult.netError)
    (fun i d db2 => some (update_one_upsert db2 i d))
    (some [("Monday", Val.list [Val.obj [("id", Val.int 1), ("airing_time", Val.int 100)]])])
    []).2 _ ?_
  decide

/-! ### Claim C3: status resolution precedence -/

theorem alookup_optField_other (k1 k : String) (v : Val) (h : ¬ k1 = k) :
    alookup (optField k1 v) k = none := by
  unfold optField
  by_cases ht : truthy v
  · simp [ht, alookup, h]
  · simp [ht, alookup]

theorem alookup_optField_self (k : String) (v : Val) :
    alookup (optField k v) k = if truthy v then some v else none := by
  unfold optField
  by_cases ht : truthy v <;> simp [ht, alookup]

/-- Status written per show as the spec states it: the first truthy among the
stored status, the freshly fetched status and the inline payload status, and no
field at all when none is truthy. -/
def statusSpec (ex fe inl : Val) : Option Val :=
  if truthy ex then some ex
  else if truthy fe then some fe
  else if truthy inl then some inl
  else none

theorem pyOr_status_spec (a b c : Val) :
    (if truthy (pyOr a (pyOr b c)) then some (pyOr a (pyOr b c)) else none)
      = statusSpec a b c := by
  unfold pyOr statusSpec
  by_cases ha : truthy a <;> by_cases hb : truthy b <;> by_cases hc : truthy c <;>
    simp [ha, hb, hc]

theorem build_update_doc_status (now : Int) (ex : List (Int × Val))
    (f : List (Val × Val)) (i : Int) (info : AnimeInfo) :
    dictGet (build_update_doc now ex f i info) "status"
      = statusSpec ((alookup ex i).getD Val.null) ((alookup f (Val.int i)).getD Val.null)
          (dictGetD info.anime "status" Val.null) := by
  unfold build_update_doc dictGet resolvedStatus
  rw [alookup_append, alookup_append, alookup_append, alookup_append]
  rw [show alookup [("id", Val.int i), ("nextEpisode", info.nextEpisode),
      ("nextAiringAt", Val.int info.nextAiringAt), ("updatedAt", Val.int now)] "status"
      = none from rfl]
  rw [alookup_optField_other "title" "status" _ (by decide)]
  rw [alookup_optField_other "coverImage" "status" _ (by decide)]
  rw [alookup_optField_other "siteUrl" "status" _ (by decide)]
  simp only [optOr]
  rw [alookup_optField_self]
  exact pyOr_status_spec _ _ _

/-- Claim C3: the ids sent to the external lookup are exactly the surviving ids
whose stored status is missing or falsy, and the status field written (or
omitted) in each issued update document follows the precedence stored status,
else freshly fetched status, else inline payload status, else absent. -/
theorem save_status_precedence (now : Int) (iso : String → Option Int)
    (net : Nat → List Int → BatchResult) (upd : Int → Doc → List Doc → Option (List Doc))
    (data : Option (List (String × Val))) (db : List Doc) :
    (save_schedule_data now iso net upd data db).lookupIds
      = missingIds db ((collapse now iso data).map Prod.fst)
    ∧ ∀ q ∈ (save_schedule_data now iso net upd data db).upserts,
        ∃ info, (q.1, info) ∈ collapse now iso data ∧
          dictGet q.2 "status" = statusSpec
            ((alookup (existingStatusOf db ((collapse now iso data).map Prod.fst)) q.1).getD
              Val.null)
            ((alookup (fetchedStatusMap net db ((collapse now iso data).map Prod.fst)).map
              (Val.int q.1)).getD Val.null)
            (dictGetD info.anime "status" Val.null) := by
  constructor
  · by_cases hemp : (collapse now iso data).isEmpty
    · have h1 : (save_schedule_data now iso net upd data db).lookupIds = [] := by
        simp [save_schedule_data, hemp]
      have h2 : collapse now iso data = [] := by
        cases hc : collapse now iso data with
        | nil => rfl
        | cons a rest => rw [hc] at hemp; simp [List.isEmpty] at hemp
      rw [h1, h2]
      rfl
    · simp [save_schedule_data, hemp]
  · intro q hq
    have hmem := save_upserts_mem now iso net upd data db q hq
    unfold save_planned_docs at hmem
    rcases List.mem_map.mp hmem with ⟨p, hp, hqe⟩
    subst hqe
    exact ⟨p.2, hp, build_update_doc_status now _ _ p.1 p.2⟩

/-- Concrete scenario for the C3 witness: two surviving shows, the first with a
stored status, the second getting its status from the external lookup. -/
def dataW3 : Option (List (String × Val)) :=
  some [("Monday", Val.list [
    Val.obj [("id", Val.int 1), ("airing_time", Val.int 100)],
    Val.obj [("id", Val.int 2), ("airing_time", Val.int 120), ("status", Val.str "INLINE")]])]

/-- Store for the C3 witness: show 1 already has a stored status. -/
def dbW3 : List Doc := [[("id", Val.int 1), ("status", Val.str "RELEASING")]]

/-- Network for the C3 witness: the lookup reports a status for show 2. -/
def netW3 : Nat → List Int → BatchResult := fun _ _ =>
  BatchResult.response 200 [[("id", Val.int 2), ("status", Val.str "FIN")]]

/-- Store write operation for the C3 witness: plain upsert, never failing. -/
def updW3 : Int → Doc → List Doc → Option (List Doc) :=
  fun i d db2 => some (update_one_upsert db2 i d)

/-- The upsert issued for show 2 in the C3 witness scenario. -/
def qW3 : Int × Doc :=
  (2, build_update_doc 10
    (existingStatusOf dbW3 ((collapse 10 (fun _ => none) dataW3).map Prod.fst))
    (fetchedStatusMap netW3 dbW3 ((collapse 10 (fun _ => none) dataW3).map Prod.fst)).map 2
    ⟨[("id", Val.int 2), ("airing_time", Val.int 120), ("status", Val.str "INLINE")], 120,
      Val.null⟩)

/-- Witness for C3 in the concrete scenario. -/
theorem save_status_precedence_witness :
    (save_schedule_data 10 (fun _ => none) netW3 updW3 dataW3 dbW3).lookupIds
      = missingIds dbW3 ((collapse 10 (fun _ => none) dataW3).map Prod.fst)
    ∧ ∃ info, (qW3.1, info) ∈ collapse 10 (fun _ => none) dataW3 ∧
        dictGet qW3.2 "status" = statusSpec
          ((alookup (existingStatusOf dbW3
            ((collapse 10 (fun _ => none) dataW3).map Prod.fst)) qW3.1).getD Val.null)
          ((alookup (fetchedStatusMap netW3 dbW3
            ((collapse 10 (fun _ => none) dataW3).map Prod.fst)).map (Val.int qW3.1)).getD
            Val.null)
          (dictGetD info.anime "status" Val.null) :=
  ⟨(save_status_precedence 10 (fun _ => none) netW3 updW3 dataW3 dbW3).1,
   (save_status_precedence 10 (fun _ => none) netW3 updW3 dataW3 dbW3).2 qW3 (by decide)⟩

/-! ### Claim C4: an upsert failure aborts the loop and propagates -/

theorem list_isEmpty_eq_nil {α : Type} {l : List α} (h : l.isEmpty = true) : l = [] := by
  cases l with
  | nil => rfl
  | cons a rest => simp [List.isEmpty] at h

theorem write_phase_characterize (upd : Int → Doc → List Doc → Option (List Doc)) :
    ∀ (items : List (Int × Doc)) (db : List Doc),
      ((write_phase upd items db).raised = false → (write_phase upd items db).upserts = items)
      ∧ ((write_phase upd items db).raised = true →
          (write_phase upd items db).upserts.length < items.length
          ∧ (write_phase upd items db).upserts
              = items.take (write_phase upd items db).upserts.length) := by
  intro items
  induction items with
  | nil =>
    intro db
    constructor
    · intro _; rfl
    · intro h; simp [write_phase] at h
  | cons p rest ih =>
    intro db
    obtain ⟨i, d⟩ := p
    cases hu : upd i d db with
    | some db1 =>
      have hw : write_phase upd ((i, d) :: rest) db
          = ⟨(write_phase upd rest db1).db, (write_phase upd rest db1).raised,
             (i, d) :: (write_phase upd rest db1).upserts⟩ := by
        simp [write_phase, hu]
      constructor
      · intro h
        rw [hw] at h ⊢
        simp only at h ⊢
        rw [(ih db1).1 h]
      · intro h
        rw [hw] at h ⊢
        simp only at h ⊢
        rcases (ih db1).2 h with ⟨hlen, htake⟩
        constructor
        · simpa using Nat.succ_lt_succ hlen
        · rw [List.length_cons, List.take_succ_cons, ← htake]
    | none =>
      have hw : write_phase upd ((i, d) :: rest) db = ⟨db, true, []⟩ := by
        simp [write_phase, hu]
      constructor
      · intro h; rw [hw] at h; simp at h
      · intro _
        rw [hw]
        exact ⟨by simp, by simp⟩

/-- Counterexample to claim C4: a payload with two surviving shows where the
store upsert raises on the first processed show; the exception escapes
save_schedule_data and the second show is never upserted, so the writes are not
isolated per show. -/
def dataW4 : Option (List (String × Val)) :=
  some [("Monday", Val.list [
    Val.obj [("id", Val.int 1), ("airing_time", Val.int 100)],
    Val.obj [("id", Val.int 2), ("airing_time", Val.int 120)]])]

/-- Store write operation for the C4 counterexample: raises on show 1. -/
def updW4 : Int → Doc → List Doc → Option (List Doc) :=
  fun i d db2 => if i = 1 then none else some (update_one_upsert db2 i d)

/-- Counterexample theorem for C4: two shows survive the collapse, the upsert
of the first raises, and then no upsert at all is recorded while the failure
escapes to the caller. -/
theorem save_upsert_not_isolated :
    (collapse 10 (fun _ => none) dataW4).length = 2
    ∧ (save_schedule_data 10 (fun _ => none) (fun _ _ => BatchResult.netError)
        updW4 dataW4 []).raised = true
    ∧ (save_schedule_data 10 (fun _ => none) (fun _ _ => BatchResult.netError)
        updW4 dataW4 []).upserts = [] := by
  exact ⟨rfl, rfl, rfl⟩

/-- Claim C4 as amended: the write loop of save_schedule_data has no exception
handler, so a raising upsert propagates to the caller; when nothing raises all
planned upserts are performed in order, and when some upsert raises exactly a
proper prefix of the planned upserts (those before the failing one) has been
performed and the rest is skipped. -/
theorem save_upsert_failure_propagates (now : Int) (iso : String → Option Int)
    (net : Nat → List Int → BatchResult) (upd : Int → Doc → List Doc → Option (List Doc))
    (data : Option (List (String × Val))) (db : List Doc) :
    ((save_schedule_data now iso net upd data db).raised = false →
      (save_schedule_data now iso net upd data db).upserts
        = save_planned_docs now iso net data db)
    ∧ ((save_schedule_data now iso net upd data db).raised = true →
      (save_schedule_data now iso net upd data db).upserts.length
          < (save_planned_docs now iso net data db).length
      ∧ (save_schedule_data now iso net upd data db).upserts
          = (save_planned_docs now iso net data db).take
              (save_schedule_data now iso net upd data db).upserts.length) := by
  by_cases hemp : (collapse now iso data).isEmpty
  · have hnil := list_isEmpty_eq_nil hemp
    have h1 : (save_schedule_data now iso net upd data db).upserts = [] := by
      simp [save_schedule_data, hemp]
    have h2 : (save_schedule_data now iso net upd data db).raised = false := by
      simp [save_schedule_data, hemp]
    have h3 : save_planned_docs now iso net data db = [] := by
      unfold save_planned_docs
      rw [hnil]
      rfl
    constructor
    · intro _; rw [h1, h3]
    · intro h; rw [h2] at h; exact absurd h (by simp)
  · have hr : (save_schedule_data now iso net upd data db).raised
        = (write_phase upd (save_planned_docs now iso net data db) db).raised := by
      simp [save_schedule_data, hemp]
    have hup : (save_schedule_data now iso net upd data db).upserts
        = (write_phase upd (save_planned_docs now iso net data db) db).upserts := by
      simp [save_schedule_data, hemp]
    rw [hr, hup]
    exact write_phase_characterize upd _ db

/-- Witness for the amended C4: with a never-failing store all planned upserts
happen, and with the store raising on show 1 only a proper prefix happens. -/
theorem save_upsert_failure_propagates_witness :
    (save_schedule_data 10 (fun _ => none) (fun _ _ => BatchResult.netError)
        updW3 dataW4 []).upserts
      = save_planned_docs 10 (fun _ => none) (fun _ _ => BatchResult.netError) dataW4 []
    ∧ (save_schedule_data 10 (fun _ => none) (fun _ _ => BatchResult.netError)
        updW4 dataW4 []).upserts.length
      < (save_planned_docs 10 (fun _ => none) (fun _ _ => BatchResult.netError) dataW4 []).length :=
  ⟨(save_upsert_failure_propagates 10 (fun _ => none) (fun _ _ => BatchResult.netError)
      updW3 dataW4 []).1 rfl,
   ((save_upsert_failure_propagates 10 (fun _ => none) (fun _ _ => BatchResult.netError)
      updW4 dataW4 []).2 rfl).1⟩

/-! ### Claim C5: the sweep deletes exactly the terminally-reported ids -/

theorem mem_foldl_append {α β : Type} (f : β → List α) (L : List β) :
    ∀ (acc : List α) (x : α),
      x ∈ L.foldl (fun a b => a ++ f b) acc ↔ x ∈ acc ∨ ∃ b ∈ L, x ∈ f b := by
  induction L with
  | nil => intro acc x; simp
  | cons b L ih =>
    intro acc x
    rw [List.foldl_cons, ih]
    constructor
    · rintro (h | h)
      · rcases List.mem_append.mp h with h1 | h1
        · exact Or.inl h1
        · exact Or.inr ⟨b, List.mem_cons_self _ _, h1⟩
      · rcases h with ⟨b2, hb2, hx⟩
        exact Or.inr ⟨b2, List.mem_cons_of_mem _ hb2, hx⟩
    · rintro (h | ⟨b2, hb2, hx⟩)
      · exact Or.inl (List.mem_append.mpr (Or.inl h))
      · rcases List.mem_cons.mp hb2 with h1 | h1
        · subst h1; exact Or.inl (List.mem_append.mpr (Or.inr hx))
        · exact Or.inr ⟨b2, h1, hx⟩

/-- The finished ids contributed by the k-th cleanup batch. -/
def cleanupContrib (net : Nat → List Val → BatchResult) (uids : List Val) (k : Nat) :
    List Val :=
  match net k ((uids.drop (50 * k)).take 50) with
  | .netError => []
  | .response code media => if code = 200 then cleanupBatchIds media else []

theorem cleanupStep_eq_append (net : Nat → List Val → BatchResult) (uids : List Val)
    (acc : List Val) (k : Nat) :
    cleanupStep net uids acc k = acc ++ cleanupContrib net uids k := by
  unfold cleanupStep cleanupContrib
  cases net k ((uids.drop (50 * k)).take 50) with
  | netError => simp
  | response code media => by_cases hc : code = 200 <;> simp [hc]

theorem mem_cleanupBatchIds (media : List Doc) (x : Val) :
    x ∈ cleanupBatchIds media
      ↔ ∃ d ∈ media, isFinishedStatus (dictGetD d "status" Val.null) = true
          ∧ dictGetD d "id" Val.null = x := by
  unfold cleanupBatchIds
  rw [List.foldl_ext _
      (fun acc d => acc ++ (if isFinishedStatus (dictGetD d "status" Val.null)
        then [dictGetD d "id" Val.null] else [])) _
      (fun acc d _ => by by_cases hc : isFinishedStatus (dictGetD d "status" Val.null) <;>
        simp [hc])]
  rw [mem_foldl_append]
  constructor
  · rintro (h | ⟨d, hd, hx⟩)
    · simp at h
    · by_cases hc : isFinishedStatus (dictGetD d "status" Val.null)
      · rw [if_pos hc] at hx
        simp at hx
        exact ⟨d, hd, hc, hx.symm⟩
      · rw [if_neg hc] at hx
        simp at hx
  · rintro ⟨d, hd, hc, hx⟩
    refine Or.inr ⟨d, hd, ?_⟩
    rw [if_pos hc]
    simp [hx]

/-- The lookup reported a terminal status for id x during the sweep: some batch
got a 200 response whose media carries an entry with this id and a status in
FINISHED_STATUSES. -/
def reportedTerminal (net : Nat → List Val → BatchResult) (uids : List Val) (x : Val) :
    Prop :=
  ∃ k ∈ List.range (numBatches uids.length), ∃ code media,
    net k ((uids.drop (50 * k)).take 50) = BatchResult.response code media ∧ code = 200
    ∧ ∃ d ∈ media, isFinishedStatus (dictGetD d "status" Val.null) = true
        ∧ dictGetD d "id" Val.null = x

theorem mem_cleanupContrib (net : Nat → List Val → BatchResult) (uids : List Val)
    (k : Nat) (x : Val) :
    x ∈ cleanupContrib net uids k
      ↔ ∃ code media,
          net k ((uids.drop (50 * k)).take 50) = BatchResult.response code media
          ∧ code = 200
          ∧ ∃ d ∈ media, isFinishedStatus (dictGetD d "status" Val.null) = true
              ∧ dictGetD d "id" Val.null = x := by
  cases hn : net k ((uids.drop (50 * k)).take 50) with
  | netError =>
    have hcc : cleanupContrib net uids k = [] := by
      unfold cleanupContrib
      rw [hn]
    rw [hcc]
    simp only [List.not_mem_nil, false_iff]
    rintro ⟨c2, m2, he, _⟩
    cases he
  | response code media =>
    have hcc : cleanupContrib net uids k
        = if code = 200 then cleanupBatchIds media else [] := by
      unfold cleanupContrib
      rw [hn]
    rw [hcc]
    by_cases hc : code = 200
    · subst hc
      rw [if_pos rfl, mem_cleanupBatchIds]
      constructor
      · intro h
        exact ⟨200, media, rfl, rfl, h⟩
      · rintro ⟨c2, m2, he, hc2, h⟩
        cases he
        exact h
    · rw [if_neg hc]
      simp only [List.not_mem_nil, false_iff]
      rintro ⟨c2, m2, he, hc2, _⟩
      cases he
      exact hc hc2

theorem mem_cleanupFinished_iff (net : Nat → List Val → BatchResult) (uids : List Val)
    (x : Val) :
    x ∈ cleanupFinishedList net uids ↔ reportedTerminal net uids x := by
  unfold cleanupFinishedList reportedTerminal
  rw [List.foldl_ext (cleanupStep net uids) (fun a k => a ++ cleanupContrib net uids k) _
      (fun a k _ => cleanupStep_eq_append net uids a k)]
  rw [mem_foldl_append]
  simp only [List.not_mem_nil, false_or]
  exact exists_congr (fun k => and_congr_right (fun _ => mem_cleanupContrib net uids k x))

/-- Claim C5: after a sweep over any store and any lookup behaviour, the
collected finished list holds exactly the ids for which a batch reported a
terminal status; the remaining store is the original one with exactly the
documents whose id lies in that list removed; the returned count is the number
of documents so removed; and an empty store returns zero with no external call. -/
theorem cleanup_sweep (net : Nat → List Val → BatchResult) (db : List Doc) :
    (db = [] → cleanup_finished_anime net db = ⟨[], 0, 0, []⟩)
    ∧ (∀ x : Val, x ∈ (cleanup_finished_anime net db).finished
        ↔ reportedTerminal net (distinctIds db) x)
    ∧ (cleanup_finished_anime net db).db
        = db.filter (fun d =>
            !((cleanup_finished_anime net db).finished.contains (dictGetD d "id" Val.null)))
    ∧ (cleanup_finished_anime net db).ret
        = ((db.filter (fun d =>
            (cleanup_finished_anime net db).finished.contains
              (dictGetD d "id" Val.null))).length : Int) := by
  by_cases hemp : (distinctIds db).isEmpty
  · have huids := list_isEmpty_eq_nil hemp
    have hc : cleanup_finished_anime net db = ⟨db, 0, 0, []⟩ := by
      simp [cleanup_finished_anime, hemp]
    refine ⟨?_, ?_, ?_, ?_⟩
    · intro hdb; subst hdb; exact hc
    · intro x
      rw [hc, huids]
      simp [reportedTerminal, numBatches]
    · rw [hc]
      simp [List.contains]
    · rw [hc]
      simp [List.contains]
  · by_cases hfin : (cleanupFinishedList net (distinctIds db)).isEmpty
    · have hflist := list_isEmpty_eq_nil hfin
      have hc : cleanup_finished_anime net db
          = ⟨db, 0, numBatches (distinctIds db).length,
             cleanupFinishedList net (distinctIds db)⟩ := by
        simp [cleanup_finished_anime, hemp, hfin]
      refine ⟨?_, ?_, ?_, ?_⟩
      · intro hdb; subst hdb; exact absurd rfl hemp
      · intro x
        rw [hc]
        exact mem_cleanupFinished_iff net (distinctIds db) x
      · rw [hc, hflist]
        simp [List.contains]
      · rw [hc, hflist]
        simp [List.contains]
    · have hc : cleanup_finished_anime net db
          = ⟨db.filter (fun d =>
                !((cleanupFinishedList net (distinctIds db)).contains
                  (dictGetD d "id" Val.null))),
             ((db.filter (fun d =>
                (cleanupFinishedList net (distinctIds db)).contains
                  (dictGetD d "id" Val.null))).length : Int),
             numBatches (distinctIds db).length,
             cleanupFinishedList net (distinctIds db)⟩ := by
        simp [cleanup_finished_anime, hemp, hfin]
      refine ⟨?_, ?_, ?_, ?_⟩
      · intro hdb; subst hdb; exact absurd rfl hemp
      · intro x
        rw [hc]
        exact mem_cleanupFinished_iff net (distinctIds db) x
      · rw [hc]
      · rw [hc]

/-- Witness for C5: the empty store yields zero deletions and no network call. -/
theorem cleanup_sweep_witness :
    cleanup_finished_anime (fun _ _ => BatchResult.netError) [] = ⟨[], 0, 0, []⟩ :=
  (cleanup_sweep (fun _ _ => BatchResult.netError) []).1 rfl

/-! ### Claim C1: one record per id, earliest future airing wins -/

/-- A payload entry that survives the collapse checks on its own: a dict whose
declared id parses as an integer and whose airing time normalizes to a value not
before now; gives the id and the record the collapse loop would build for it. -/
def validEntry (now : Int) (iso : String → Option Int) (e : Val) :
    Option (Int × AnimeInfo) :=
  match e with
  | .obj anime =>
    match pyIntCast (dictGetD anime "id" Val.null) with
    | none => none
    | some anime_id =>
      match parse_airing_time iso (dictGetD anime "airing_time" Val.null) with
      | none => none
      | some next_at =>
        if next_at < now then none
        else some (anime_id, ⟨anime, next_at, dictGetD anime "episode" Val.null⟩)
  | _ => none

/-- The map update the collapse loop performs for one surviving entry: insert a
fresh id at the end, or replace the stored record only on a strictly earlier
airing time (so on equal times the stored, first-encountered record stays). -/
def updateMin (m : List (Int × AnimeInfo)) (i : Int) (info : AnimeInfo) :
    List (Int × AnimeInfo) :=
  match alookup m i with
  | none => m ++ [(i, info)]
  | some prev =>
    if info.nextAiringAt < prev.nextAiringAt then insertOrReplace m i info else m

theorem collapse_step_eq (now : Int) (iso : String → Option Int)
    (m : List (Int × AnimeInfo)) (e : Val) :
    collapse_step now iso m e
      = match validEntry now iso e with
        | none => m
        | some (i, info) => updateMin m i info := by
  cases e with
  | obj anime =>
    simp only [collapse_step, validEntry, updateMin]
    cases pyIntCast (dictGetD anime "id" Val.null) with
    | none => rfl
    | some i =>
      cases parse_airing_time iso (dictGetD anime "airing_time" Val.null) with
      | none => rfl
      | some t =>
        by_cases hlt : t < now
        · simp only [if_pos hlt]
        · simp only [if_neg hlt]
  | null => rfl
  | int n => rfl
  | str s => rfl
  | list xs => rfl

/-- One step of the per-id selection the spec describes: keep the stored record
unless the new one airs strictly earlier. -/
def minStep (acc : Option AnimeInfo) (info : AnimeInfo) : Option AnimeInfo :=
  match acc with
  | none => some info
  | some b => if info.nextAiringAt < b.nextAiringAt then some info else some b

theorem alookup_updateMin_self (m : List (Int × AnimeInfo)) (i : Int) (info : AnimeInfo) :
    alookup (updateMin m i info) i = minStep (alookup m i) info := by
  unfold updateMin minStep
  cases halo : alookup m i with
  | none =>
    show alookup (m ++ [(i, info)]) i = some info
    rw [alookup_append, halo]
    simp [alookup, optOr]
  | some prev =>
    show alookup (if info.nextAiringAt < prev.nextAiringAt
        then insertOrReplace m i info else m) i
      = if info.nextAiringAt < prev.nextAiringAt then some info else some prev
    by_cases hlt : info.nextAiringAt < prev.nextAiringAt
    · rw [if_pos hlt, if_pos hlt]
      exact alookup_insertOrReplace_self m i info
    · rw [if_neg hlt, if_neg hlt]
      exact halo

theorem alookup_updateMin_other (m : List (Int × AnimeInfo)) (i j : Int)
    (info : AnimeInfo) (hij : j ≠ i) :
    alookup (updateMin m i info) j = alookup m j := by
  unfold updateMin
  cases halo : alookup m i with
  | none =>
    show alookup (m ++ [(i, info)]) j = alookup m j
    rw [alookup_append]
    cases hj : alookup m j with
    | some v => rfl
    | none =>
      show optOr none (alookup [(i, info)] j) = none
      have hineq : ¬ i = j := fun hh => hij hh.symm
      simp [alookup, optOr, hineq]
  | some prev =>
    show alookup (if info.nextAiringAt < prev.nextAiringAt
        then insertOrReplace m i info else m) j = alookup m j
    by_cases hlt : info.nextAiringAt < prev.nextAiringAt
    · rw [if_pos hlt]
      exact alookup_insertOrReplace_other m i j info hij
    · rw [if_neg hlt]

theorem updateMin_fst_nodup (m : List (Int × AnimeInfo)) (i : Int) (info : AnimeInfo)
    (h : (m.map Prod.fst).Nodup) : ((updateMin m i info).map Prod.fst).Nodup := by
  unfold updateMin
  cases halo : alookup m i with
  | none =>
    show ((m ++ [(i, info)]).map Prod.fst).Nodup
    rw [List.map_append]
    have hni : i ∉ m.map Prod.fst := (alookup_eq_none_iff m i).mp halo
    refine h.append (by simp) ?_
    intro a ha hai
    rw [List.mem_singleton.mp hai] at ha
    exact hni ha
  | some prev =>
    show ((if info.nextAiringAt < prev.nextAiringAt
        then insertOrReplace m i info else m).map Prod.fst).Nodup
    by_cases hlt : info.nextAiringAt < prev.nextAiringAt
    · rw [if_pos hlt, insertOrReplace_fst_of_found m i info prev halo]
      exact h
    · rw [if_neg hlt]
      exact h

/-- One step of the per-id selection fold over the raw entries: entries that are
not well-formed, not future, or belong to another id leave the choice alone. -/
def bestStep (now : Int) (iso : String → Option Int) (id : Int)
    (acc : Option AnimeInfo) (e : Val) : Option AnimeInfo :=
  match validEntry now iso e with
  | some (i, info) => if i = id then minStep acc info else acc
  | none => acc

/-- The entries of one day bucket of the payload: its list when it is a list,
nothing otherwise (non-list buckets are skipped by the collapse loop). -/
def dayEntries : Val → List Val
  | .list xs => xs
  | _ => []

/-- All payload entries in traversal order of the collapse loop. -/
def flatEntries (data : Option (List (String × Val))) : List Val :=
  ((payloadItems data).map (fun item => dayEntries item.2)).flatten

/-- The record the spec says should survive for a given id: fold the strict
earliest-future-airing selection over the entries in traversal order, so the
minimum airing time wins and on ties the first-encountered entry is kept. -/
def bestFor (now : Int) (iso : String → Option Int) (id : Int) (es : List Val) :
    Option AnimeInfo :=
  es.foldl (bestStep now iso id) none

theorem foldl_collapse_lookup (now : Int) (iso : String → Option Int) (id : Int) :
    ∀ (es : List Val) (m : List (Int × AnimeInfo)),
      alookup (es.foldl (collapse_step now iso) m) id
        = es.foldl (bestStep now iso id) (alookup m id) := by
  intro es
  induction es with
  | nil => intro m; rfl
  | cons e rest ih =>
    intro m
    rw [List.foldl_cons, List.foldl_cons, ih]
    congr 1
    rw [collapse_step_eq]
    unfold bestStep
    cases hv : validEntry now iso e with
    | none => rfl
    | some p =>
      obtain ⟨i, info⟩ := p
      show alookup (updateMin m i info) id
        = if i = id then minStep (alookup m id) info else alookup m id
      by_cases hii : i = id
      · subst hii
        rw [if_pos rfl]
        exact alookup_updateMin_self m i info
      · rw [if_neg hii]
        exact alookup_updateMin_other m i id info (fun hh => hii hh.symm)

theorem collapse_eq_flat (now : Int) (iso : String → Option Int)
    (data : Option (List (String × Val))) :
    collapse now iso data = (flatEntries data).foldl (collapse_step now iso) [] := by
  unfold collapse flatEntries
  generalize payloadItems data = items
  suffices h : ∀ (items : List (String × Val)) (m : List (Int × AnimeInfo)),
      items.foldl
        (fun m item =>
          match item.2 with
          | Val.list animes => animes.foldl (collapse_step now iso) m
          | _ => m) m
      = ((items.map (fun item => dayEntries item.2)).flatten).foldl (collapse_step now iso) m by
    exact h items []
  intro items
  induction items with
  | nil => intro m; rfl
  | cons it rest ih =>
    intro m
    rw [List.foldl_cons, List.map_cons, List.flatten_cons, List.foldl_append, ih]
    congr 1
    cases it.2 <;> rfl

theorem collapse_fst_nodup_aux (now : Int) (iso : String → Option Int) :
    ∀ (es : List Val) (m : List (Int × AnimeInfo)), (m.map Prod.fst).Nodup →
      ((es.foldl (collapse_step now iso) m).map Prod.fst).Nodup := by
  intro es
  induction es with
  | nil => intro m h; exact h
  | cons e rest ih =>
    intro m h
    rw [List.foldl_cons]
    apply ih
    rw [collapse_step_eq]
    cases hv : validEntry now iso e with
    | none => exact h
    | some p =>
      obtain ⟨i, info⟩ := p
      exact updateMin_fst_nodup m i info h

theorem bestFold_min (now : Int) (iso : String → Option Int) (id : Int) :
    ∀ (es : List Val) (acc : Option AnimeInfo) (info : AnimeInfo),
      es.foldl (bestStep now iso id) acc = some info →
      (∀ b0, acc = some b0 → info.nextAiringAt ≤ b0.nextAiringAt)
      ∧ ∀ e ∈ es, ∀ p, validEntry now iso e = some p → p.1 = id →
          info.nextAiringAt ≤ p.2.nextAiringAt := by
  intro es
  induction es with
  | nil =>
    intro acc info h
    have hacc : acc = some info := h
    constructor
    · intro b0 hb0
      rw [hacc] at hb0
      injection hb0 with hb0
      rw [hb0]
    · intro e he
      exact absurd he (List.not_mem_nil e)
  | cons e rest ih =>
    intro acc info h
    rw [List.foldl_cons] at h
    rcases ih (bestStep now iso id acc e) info h with ⟨h1, h2⟩
    unfold bestStep at h1
    constructor
    · intro b0 hb0
      cases hv : validEntry now iso e with
      | none =>
        simp only [hv] at h1
        exact h1 b0 hb0
      | some p =>
        obtain ⟨i2, inf2⟩ := p
        simp only [hv] at h1
        by_cases hpid : i2 = id
        · rw [if_pos hpid] at h1
          subst hb0
          by_cases hlt : inf2.nextAiringAt < b0.nextAiringAt
          · have hmin := h1 inf2 (by simp [minStep, hlt])
            exact le_trans hmin (le_of_lt hlt)
          · exact h1 b0 (by simp [minStep, hlt])
        · rw [if_neg hpid] at h1
          exact h1 b0 hb0
    · intro e2 he2 p hp hpid
      rcases List.mem_cons.mp he2 with he2 | he2
      · subst he2
        obtain ⟨i2, inf2⟩ := p
        rw [hp] at h1
        simp only at h1
        simp only at hpid
        rw [if_pos hpid] at h1
        cases acc with
        | none => exact h1 inf2 rfl
        | some prev =>
          by_cases hlt : inf2.nextAiringAt < prev.nextAiringAt
          · exact h1 inf2 (by simp [minStep, hlt])
          · have hmin := h1 prev (by simp [minStep, hlt])
            exact le_trans hmin (le_of_not_lt hlt)
      · exact h2 e2 he2 p hp hpid

/-- Claim C1: in the collapsed map of save_schedule_data every id occurs at most
once, and the record stored for an id is exactly the fold of the strict
earliest-future-airing selection over the well-formed future entries for that
id in traversal order: the strictly smaller nextAiringAt wins and on equal
times the first-encountered entry is kept; all other entries are discarded. -/
theorem collapse_earliest_future_wins (now : Int) (iso : String → Option Int)
    (data : Option (List (String × Val))) :
    ((collapse now iso data).map Prod.fst).Nodup
    ∧ (∀ id : Int, alookup (collapse now iso data) id
        = bestFor now iso id (flatEntries data))
    ∧ ∀ (id : Int) (info : AnimeInfo), alookup (collapse now iso data) id = some info →
        ∀ e ∈ flatEntries data, ∀ p, validEntry now iso e = some p → p.1 = id →
          info.nextAiringAt ≤ p.2.nextAiringAt := by
  refine ⟨?_, ?_, ?_⟩
  · rw [collapse_eq_flat]
    exact collapse_fst_nodup_aux now iso (flatEntries data) [] (by simp)
  · intro id
    rw [collapse_eq_flat]
    exact foldl_collapse_lookup now iso id (flatEntries data) []
  · intro id info hinfo e he p hp hpid
    rw [collapse_eq_flat, foldl_collapse_lookup now iso id (flatEntries data) []] at hinfo
    exact (bestFold_min now iso id (flatEntries data) _ info hinfo).2 e he p hp hpid

example :
    alookup (collapse 0 (fun _ => none)
      (some [("d", Val.list [
        Val.obj [("id", Val.int 1), ("airing_time", Val.int 50), ("episode", Val.int 7)],
        Val.obj [("id", Val.int 1), ("airing_time", Val.int 30), ("episode", Val.int 9)]])])) 1
    = some ⟨[("id", Val.int 1), ("airing_time", Val.int 30), ("episode", Val.int 9)], 30,
        Val.int 9⟩ := by decide

example :
    alookup (collapse 0 (fun _ => none)
      (some [("d", Val.list [
        Val.obj [("id", Val.int 1), ("airing_time", Val.int 30), ("episode", Val.int 7)],
        Val.obj [("id", Val.int 1), ("airing_time", Val.int 30), ("episode", Val.int 9)]])])) 1
    = some ⟨[("id", Val.int 1), ("airing_time", Val.int 30), ("episode", Val.int 7)], 30,
        Val.int 7⟩ := by decide

example :
    (collapse 0 (fun _ => none)
      (some [("d", Val.list [
        Val.obj [("id", Val.int 1), ("airing_time", Val.int 50)],
        Val.obj [("id", Val.int 1), ("airing_time", Val.int 30)]])])).length = 1 := by decide

/-- Payload for the C1 witness: the same show appears twice, the later entry
airing earlier. -/
def dataW1 : Option (List (String × Val)) :=
  some [("d", Val.list [
    Val.obj [("id", Val.int 1), ("airing_time", Val.int 50)],
    Val.obj [("id", Val.int 1), ("airing_time", Val.int 30)]])]

/-- Witness for C1: in the concrete two-entry payload the collapsed map is
keyed without duplicates, agrees with the earliest-selection fold, and the kept
record airs no later than the discarded 50-second entry. -/
theorem collapse_earliest_future_wins_witness :
    ((collapse 0 (fun _ => none) dataW1).map Prod.fst).Nodup
    ∧ alookup (collapse 0 (fun _ => none) dataW1) 1
        = bestFor 0 (fun _ => none) 1 (flatEntries dataW1)
    ∧ (⟨[("id", Val.int 1), ("airing_time", Val.int 30)], 30, Val.null⟩
        : AnimeInfo).nextAiringAt
      ≤ (⟨[("id", Val.int 1), ("airing_time", Val.int 50)], 50, Val.null⟩
        : AnimeInfo).nextAiringAt :=
  ⟨(collapse_earliest_future_wins 0 (fun _ => none) dataW1).1,
   (collapse_earliest_future_wins 0 (fun _ => none) dataW1).2.1 1,
   (collapse_earliest_future_wins 0 (fun _ => none) dataW1).2.2 1
     ⟨[("id", Val.int 1), ("airing_time", Val.int 30)], 30, Val.null⟩ (by decide)
     (Val.obj [("id", Val.int 1), ("airing_time", Val.int 50)]) (by decide)
     (1, ⟨[("id", Val.int 1), ("airing_time", Val.int 50)], 50, Val.null⟩) (by decide) rfl⟩
